import Mathlib

/-!  A shallow embedding of the core array types of the `narrow` crate
(`src/src/array/boolean.rs`, `src/src/array/fixed_size_primitive.rs`,
`src/src/array/null.rs`): bit-packed boolean arrays, fixed-size primitive
arrays and null arrays, each in a non-nullable and a nullable
(validity-tracked) variant.  The `Bitmap`, `Nullable` and `Validity`
components these files consume are not part of the given sources, so they
are modelled from the specification (sections 3, 4.1, 4.2 and 6 of the
spec), which fixes their observable behaviour: bit packing order,
default-on-null, lock-step growth of data and validity, promotion with a
fresh all-true bitmap, and optional results for out-of-range validity
queries. -/

namespace Narrow

/-- Test of bit `k` of the natural number `n` (bit 0 is least significant). -/
def bitAt (n k : Nat) : Bool := decide (n / 2 ^ k % 2 = 1)

/-- Modelled from the spec: the value of one packed byte of the external
`Bitmap` collaborator; the first list element becomes the least-significant
bit of the byte. -/
def byteOfBits (l : List Bool) : Nat :=
  l.foldr (fun b acc => (if b then 1 else 0) + 2 * acc) 0

/-- Modelled from the spec: the raw packed-byte view of a bit sequence:
ordered bits packed 8 per byte, bit 0 at the least-significant bit of byte
0, increasing index filling toward more significant bits then the next
byte. -/
def packBits (l : List Bool) : List Nat :=
  (List.range ((l.length + 7) / 8)).map (fun j => byteOfBits ((l.drop (8 * j)).take 8))

/-- Modelled from the spec: the external `Bitmap` collaborator, a bit-packed
boolean sequence.  Its logical content is the bit sequence `bits`; the
packed-byte storage it exposes is `Bitmap.rawBytes`. -/
structure Bitmap where
  bits : List Bool

/-- An empty bitmap (default construction). -/
def Bitmap.empty : Bitmap := ⟨[]⟩

/-- Modelled from the spec: Bitmap bulk construction from a sequence of bool. -/
def Bitmap.fromList (l : List Bool) : Bitmap := ⟨l⟩

/-- Bitmap length in bits. -/
def Bitmap.len (bm : Bitmap) : Nat := bm.bits.length

/-- Modelled from the spec: append a single bit. -/
def Bitmap.push (bm : Bitmap) (b : Bool) : Bitmap := ⟨bm.bits ++ [b]⟩

/-- Modelled from the spec: extend from a sequence of bool. -/
def Bitmap.extend (bm : Bitmap) (l : List Bool) : Bitmap := ⟨bm.bits ++ l⟩

/-- Modelled from the spec: the raw-byte view of the packed bitmap storage. -/
def Bitmap.rawBytes (bm : Bitmap) : List Nat := packBits bm.bits

/-- Modelled from the spec: indexed bit read, `none` when out of range. -/
def Bitmap.bitRead (bm : Bitmap) (i : Nat) : Option Bool := bm.bits.get? i

/-- Modelled from the spec: iterating a bitmap reads each of the `len` bits
back from the packed byte storage, in index order. -/
def Bitmap.toList (bm : Bitmap) : List Bool :=
  (List.range bm.len).map (fun i => bitAt (bm.rawBytes.getD (i / 8) 0) (i % 8))

/-- Modelled from the spec: the `Nullable` wrapper pairs plain data storage
with a validity bitmap. -/
structure Nullable (D : Type) where
  data : D
  validity : Bitmap

/-- Modelled from the spec: `is_valid(i)` is an absent result when `i` is out
of range and otherwise bit `i` of the validity bitmap. -/
def Nullable.is_valid {D : Type} (n : Nullable D) (i : Nat) : Option Bool :=
  n.validity.bits.get? i

/-- Modelled from the spec: `is_null(i)` is the logical negation of
`is_valid(i)`. -/
def Nullable.is_null {D : Type} (n : Nullable D) (i : Nat) : Option Bool :=
  (n.is_valid i).map not

/-- Modelled from the spec: `all_valid()` is true iff every validity bit is
set. -/
def Nullable.all_valid {D : Type} (n : Nullable D) : Bool :=
  n.validity.bits.all (fun b => b)

/-- Modelled from the spec: promotion wraps non-nullable storage of length
`L` with a freshly allocated bitmap of `L` bits, all set true, without
rescanning the data. -/
def Nullable.wrap {D : Type} (lenOf : D → Nat) (d : D) : Nullable D :=
  ⟨d, ⟨List.replicate (lenOf d) true⟩⟩

/-- Modelled from the spec: appending one optional item grows data and
bitmap in lock-step: absent pushes the element default into data and bit
false into the bitmap; present pushes the value and bit true. -/
def Nullable.pushOpt {D α : Type} (push : D → α → D) (dflt : α)
    (n : Nullable D) (o : Option α) : Nullable D :=
  ⟨push n.data (o.getD dflt), n.validity.push o.isSome⟩

/-- Modelled from the spec: extension from a sequence of optional items,
item by item. -/
def Nullable.extendOpt {D α : Type} (push : D → α → D) (dflt : α)
    (n : Nullable D) (l : List (Option α)) : Nullable D :=
  l.foldl (Nullable.pushOpt push dflt) n

/-- Modelled from the spec: bulk construction from a sequence of optional
items, starting from empty storage. -/
def Nullable.fromListOpt {D α : Type} (empty : D) (push : D → α → D) (dflt : α)
    (l : List (Option α)) : Nullable D :=
  Nullable.extendOpt push dflt ⟨empty, ⟨[]⟩⟩ l

/-- Modelled from the spec: iterating a nullable array zips the validity
bits with the data elements, producing optional items. -/
def Nullable.toListOpt {D α : Type} (dataToList : D → List α) (n : Nullable D) :
    List (Option α) :=
  List.zipWith (fun b v => if b then some v else none) n.validity.toList (dataToList n.data)

/-- `Nulls` from `src/src/array/null.rs`: new type wrapper for null elements
that stores only the element count. -/
structure Nulls where
  len : Nat

/-- `FromIterator for Nulls` (null.rs): counts the items. -/
def Nulls.fromList {α : Type} (l : List α) : Nulls := ⟨l.length⟩

/-- `Extend for Nulls` (null.rs): adds the item count. -/
def Nulls.extend {α : Type} (n : Nulls) (l : List α) : Nulls := ⟨n.len + l.length⟩

/-- Appending a single element to `Nulls` increments the count. -/
def Nulls.push {α : Type} (n : Nulls) (_ : α) : Nulls := ⟨n.len + 1⟩

/-- `IntoIterator for Nulls` (null.rs): repeats the default value `len`
times. -/
def Nulls.toList {α : Type} (dflt : α) (n : Nulls) : List α := List.replicate n.len dflt

/-- `BooleanArray<false>` (boolean.rs): the storage is a single `Bitmap`. -/
abbrev BooleanArray := Bitmap

/-- `BooleanArray<true>` (boolean.rs): the storage is `Nullable<Bitmap, Bitmap>`. -/
abbrev BooleanArrayNullable := Nullable Bitmap

/-- `FromIterator<bool> for BooleanArray<false>`: collects the bools into the
value bitmap. -/
def BooleanArray.fromList (l : List Bool) : BooleanArray := Bitmap.fromList l

/-- Owning `IntoIterator for BooleanArray<false>`: iterates the value bitmap. -/
def BooleanArray.toList (a : BooleanArray) : List Bool := Bitmap.toList a

/-- Borrowing `IntoIterator for &BooleanArray<false>`: iterates the value
bitmap. -/
def BooleanArray.refToList (a : BooleanArray) : List Bool := Bitmap.toList a

/-- `From<BooleanArray<false>> for BooleanArray<true>` (boolean.rs):
`Nullable::wrap` of the value bitmap. -/
def BooleanArray.toNullable (a : BooleanArray) : BooleanArrayNullable :=
  Nullable.wrap Bitmap.len a

/-- `FromIterator<Option<bool>> for BooleanArray<true>`: collects optional
bools through the nullable mechanism; the bool default is `false`. -/
def BooleanArrayNullable.fromList (l : List (Option Bool)) : BooleanArrayNullable :=
  Nullable.fromListOpt Bitmap.empty Bitmap.push false l

/-- `Extend<Option<bool>> for BooleanArray<true>`. -/
def BooleanArrayNullable.extend (a : BooleanArrayNullable) (l : List (Option Bool)) :
    BooleanArrayNullable :=
  Nullable.extendOpt Bitmap.push false a l

/-- `IntoIterator for BooleanArray<true>`: optional bools, zipping validity
with values. -/
def BooleanArrayNullable.toList (a : BooleanArrayNullable) : List (Option Bool) :=
  Nullable.toListOpt Bitmap.toList a

/-- `FixedSizePrimitiveArray<T, false>` (fixed_size_primitive.rs): the
storage is a contiguous buffer of `T`, modelled as a list. -/
abbrev FixedSizePrimitiveArray (α : Type) := List α

/-- `FixedSizePrimitiveArray<T, true>`: `Nullable<buffer-of-T, Bitmap>`. -/
abbrev FixedSizePrimitiveArrayNullable (α : Type) := Nullable (List α)

/-- `FromIterator<T> for FixedSizePrimitiveArray<T, false>`: collects into
the buffer. -/
def FixedSizePrimitiveArray.fromList {α : Type} (l : List α) : FixedSizePrimitiveArray α := l

/-- `IntoIterator for FixedSizePrimitiveArray<T, false>`: the buffer
elements in order. -/
def FixedSizePrimitiveArray.toList {α : Type} (a : FixedSizePrimitiveArray α) : List α := a

/-- Appending one element to the buffer. -/
def FixedSizePrimitiveArray.push {α : Type} (a : FixedSizePrimitiveArray α) (x : α) :
    FixedSizePrimitiveArray α := a ++ [x]

/-- Modelled from the spec: the raw byte view of the buffer is the
reinterpretation of the `T` buffer's bytes, i.e. the concatenation in index
order of each element's native byte representation `toBytes`. -/
def FixedSizePrimitiveArray.rawBytes {α : Type} (toBytes : α → List Nat)
    (a : FixedSizePrimitiveArray α) : List Nat :=
  (a.map toBytes).flatten

/-- `From<FixedSizePrimitiveArray<T, false>> for FixedSizePrimitiveArray<T, true>`. -/
def FixedSizePrimitiveArray.toNullable {α : Type} (a : FixedSizePrimitiveArray α) :
    FixedSizePrimitiveArrayNullable α :=
  Nullable.wrap List.length a

/-- `FromIterator<Option<T>> for FixedSizePrimitiveArray<T, true>`: the
element default fills logically-null slots. -/
def FixedSizePrimitiveArrayNullable.fromList {α : Type} (dflt : α)
    (l : List (Option α)) : FixedSizePrimitiveArrayNullable α :=
  Nullable.fromListOpt [] FixedSizePrimitiveArray.push dflt l

/-- `Extend<Option<T>> for FixedSizePrimitiveArray<T, true>`. -/
def FixedSizePrimitiveArrayNullable.extend {α : Type} (dflt : α)
    (a : FixedSizePrimitiveArrayNullable α) (l : List (Option α)) :
    FixedSizePrimitiveArrayNullable α :=
  Nullable.extendOpt FixedSizePrimitiveArray.push dflt a l

/-- `IntoIterator for FixedSizePrimitiveArray<T, true>`. -/
def FixedSizePrimitiveArrayNullable.toList {α : Type}
    (a : FixedSizePrimitiveArrayNullable α) : List (Option α) :=
  Nullable.toListOpt (fun d => d) a

/-- Little-endian byte representation of a `u64` value (modelled as `Nat`),
the native representation used by the byte-view scenario. -/
def toBytesU64 (n : Nat) : List Nat := (List.range 8).map (fun i => n / 256 ^ i % 256)

/-- `NullArray<T, false>` (null.rs): the storage is `Nulls<T>`. -/
abbrev NullArray := Nulls

/-- `NullArray<T, true>`: `Nullable<Nulls<T>, Bitmap>`. -/
abbrev NullArrayNullable := Nullable Nulls

/-- `From<NullArray<T, false>> for NullArray<T, true>` (null.rs). -/
def NullArray.toNullable (a : NullArray) : NullArrayNullable :=
  Nullable.wrap Nulls.len a

/-- `FromIterator<Option<T>> for NullArray<T, true>`: counts items, tracking
validity. -/
def NullArrayNullable.fromList {α : Type} (dflt : α) (l : List (Option α)) :
    NullArrayNullable :=
  Nullable.fromListOpt ⟨0⟩ Nulls.push dflt l

/-- `Extend<Option<T>> for NullArray<T, true>`. -/
def NullArrayNullable.extend {α : Type} (dflt : α) (a : NullArrayNullable)
    (l : List (Option α)) : NullArrayNullable :=
  Nullable.extendOpt Nulls.push dflt a l

/-- `IntoIterator for NullArray<T, true>`: optional defaults, zipping
validity with the synthesized data elements. -/
def NullArrayNullable.toList {α : Type} (dflt : α) (a : NullArrayNullable) :
    List (Option α) :=
  Nullable.toListOpt (Nulls.toList dflt) a

/-! ## Helper lemmas -/

theorem bitAt_bit_succ (x m k : Nat) (hx : x < 2) : bitAt (x + 2 * m) (k + 1) = bitAt m k := by
  simp only [bitAt]
  have h : (x + 2 * m) / 2 ^ (k + 1) = m / 2 ^ k := by
    rw [pow_succ', ← Nat.div_div_eq_div_mul]
    congr 1
    omega
  rw [h]

theorem bitAt_bit_zero (x m : Nat) (hx : x < 2) : bitAt (x + 2 * m) 0 = decide (x = 1) := by
  simp only [bitAt, pow_zero, Nat.div_one, decide_eq_decide]
  omega

theorem byteOfBits_bitAt (l : List Bool) : ∀ k : Nat, bitAt (byteOfBits l) k = l.getD k false := by
  induction l with
  | nil =>
    intro k
    simp [byteOfBits, bitAt]
  | cons b rest ih =>
    intro k
    have hcons : byteOfBits (b :: rest) = (if b then 1 else 0) + 2 * byteOfBits rest := rfl
    cases k with
    | zero =>
      rw [hcons, bitAt_bit_zero _ _ (by cases b <;> simp), List.getD_cons_zero]
      cases b <;> simp
    | succ k =>
      rw [hcons, bitAt_bit_succ _ _ _ (by cases b <;> simp), List.getD_cons_succ, ih]

theorem packBits_bitAt (l : List Bool) (i : Nat) :
    bitAt ((packBits l).getD (i / 8) 0) (i % 8) = l.getD i false := by
  by_cases h : i / 8 < (l.length + 7) / 8
  · have hbyte : (packBits l).getD (i / 8) 0
        = byteOfBits ((l.drop (8 * (i / 8))).take 8) := by
      unfold packBits
      rw [List.getD_eq_getElem?_getD, List.getElem?_map, List.getElem?_range h]
      rfl
    rw [hbyte, byteOfBits_bitAt]
    have h8 : i % 8 < 8 := Nat.mod_lt _ (by norm_num)
    rw [List.getD_eq_getElem?_getD, List.getElem?_take_of_lt h8, List.getElem?_drop,
      List.getD_eq_getElem?_getD]
    congr 2
    omega
  · have hlen : l.length ≤ i := by omega
    have hz : (packBits l).getD (i / 8) 0 = 0 := by
      apply List.getD_eq_default
      unfold packBits
      simpa using by omega
    rw [hz, List.getD_eq_default _ _ hlen]
    simp [bitAt]

theorem range_map_getD {α : Type} (l : List α) (d : α) :
    (List.range l.length).map (fun i => l.getD i d) = l := by
  induction l with
  | nil => simp
  | cons a rest ih =>
    simp only [List.length_cons, List.range_succ_eq_map, List.map_cons,
      List.getD_cons_zero, List.map_map]
    have hf : (fun i => (a :: rest).getD i d) ∘ Nat.succ = fun i => rest.getD i d := by
      funext i
      simp [Function.comp, List.getD_cons_succ]
    rw [hf, ih]

theorem Bitmap.toList_eq (bm : Bitmap) : bm.toList = bm.bits := by
  have h : (List.range bm.bits.length).map
        (fun i => bitAt ((packBits bm.bits).getD (i / 8) 0) (i % 8))
      = (List.range bm.bits.length).map (fun i => bm.bits.getD i false) := by
    apply List.map_congr_left
    intro i _
    exact packBits_bitAt bm.bits i
  show (List.range bm.bits.length).map
      (fun i => bitAt ((packBits bm.bits).getD (i / 8) 0) (i % 8)) = bm.bits
  rw [h, range_map_getD]

theorem Nullable.extendOpt_eq {D α : Type} (push : D → α → D) (dflt : α)
    (n : Nullable D) (l : List (Option α)) :
    Nullable.extendOpt push dflt n l
      = ⟨l.foldl (fun d o => push d (o.getD dflt)) n.data,
         ⟨n.validity.bits ++ l.map Option.isSome⟩⟩ := by
  induction l generalizing n with
  | nil => simp [Nullable.extendOpt]
  | cons o rest ih =>
    show Nullable.extendOpt push dflt (Nullable.pushOpt push dflt n o) rest = _
    rw [ih]
    simp [Nullable.pushOpt, Bitmap.push]

theorem foldl_bitmap_push {γ : Type} (f : γ → Bool) (l : List γ) (bm : Bitmap) :
    l.foldl (fun d o => Bitmap.push d (f o)) bm = ⟨bm.bits ++ l.map f⟩ := by
  induction l generalizing bm with
  | nil => simp
  | cons o rest ih =>
    show List.foldl (fun d o => Bitmap.push d (f o)) (Bitmap.push bm (f o)) rest = _
    rw [ih]
    simp [Bitmap.push]

theorem foldl_list_push {γ α : Type} (f : γ → α) (l : List γ) (init : List α) :
    l.foldl (fun d o => d ++ [f o]) init = init ++ l.map f := by
  induction l generalizing init with
  | nil => simp
  | cons o rest ih => simp [List.foldl_cons, ih]

theorem foldl_nulls_push {γ α : Type} (f : γ → α) (l : List γ) (n : Nulls) :
    l.foldl (fun d o => Nulls.push d (f o)) n = ⟨n.len + l.length⟩ := by
  induction l generalizing n with
  | nil => simp
  | cons o rest ih =>
    show List.foldl (fun d o => Nulls.push d (f o)) (Nulls.push n (f o)) rest = _
    rw [ih]
    simp only [Nulls.push, List.length_cons, Nulls.mk.injEq]
    omega

theorem booleanNullable_fromList_eq (l : List (Option Bool)) :
    BooleanArrayNullable.fromList l
      = ⟨⟨l.map (fun o => o.getD false)⟩, ⟨l.map Option.isSome⟩⟩ := by
  show Nullable.extendOpt Bitmap.push false ⟨Bitmap.empty, ⟨[]⟩⟩ l = _
  rw [Nullable.extendOpt_eq]
  have h := foldl_bitmap_push (fun o : Option Bool => o.getD false) l Bitmap.empty
  simp only [Bitmap.empty, List.nil_append] at h ⊢
  rw [h]

theorem fixedSizeNullable_fromList_eq {α : Type} (dflt : α) (l : List (Option α)) :
    FixedSizePrimitiveArrayNullable.fromList dflt l
      = ⟨l.map (fun o => o.getD dflt), ⟨l.map Option.isSome⟩⟩ := by
  show Nullable.extendOpt FixedSizePrimitiveArray.push dflt ⟨[], ⟨[]⟩⟩ l = _
  rw [Nullable.extendOpt_eq]
  have h := foldl_list_push (fun o : Option α => o.getD dflt) l []
  simp only [List.nil_append] at h ⊢
  exact congrArg₂ Nullable.mk h rfl

theorem nullNullable_fromList_eq {α : Type} (dflt : α) (l : List (Option α)) :
    NullArrayNullable.fromList dflt l = ⟨⟨l.length⟩, ⟨l.map Option.isSome⟩⟩ := by
  show Nullable.extendOpt Nulls.push dflt ⟨⟨0⟩, ⟨[]⟩⟩ l = _
  rw [Nullable.extendOpt_eq]
  have h := foldl_nulls_push (fun o : Option α => o.getD dflt) l ⟨0⟩
  simp only [List.nil_append] at h ⊢
  rw [h]
  simp

theorem all_replicate_true (n : Nat) : (List.replicate n true).all (fun b => b) = true := by
  induction n with
  | zero => rfl
  | succ n ih => simp [List.replicate_succ, ih]

theorem zipWith_replicate_some {α : Type} (l : List α) :
    List.zipWith (fun b v => if b then some v else none) (List.replicate l.length true) l
      = l.map some := by
  induction l with
  | nil => rfl
  | cons a rest ih => simp [List.replicate_succ, ih]

theorem get?_eq_some_getD {α : Type} (l : List α) (d : α) :
    ∀ i : Nat, i < l.length → l.get? i = some (l.getD i d) := by
  induction l with
  | nil =>
    intro i h
    simp at h
  | cons a rest ih =>
    intro i h
    cases i with
    | zero => simp
    | succ i => simpa using ih i (by simpa using h)

theorem booleanNullable_extend_eq (a : BooleanArrayNullable) (l : List (Option Bool)) :
    BooleanArrayNullable.extend a l
      = ⟨⟨a.data.bits ++ l.map (fun o => o.getD false)⟩,
         ⟨a.validity.bits ++ l.map Option.isSome⟩⟩ := by
  show Nullable.extendOpt Bitmap.push false a l = _
  rw [Nullable.extendOpt_eq, foldl_bitmap_push (fun o : Option Bool => o.getD false) l a.data]

theorem fixedSizeNullable_extend_eq {α : Type} (dflt : α)
    (a : FixedSizePrimitiveArrayNullable α) (l : List (Option α)) :
    FixedSizePrimitiveArrayNullable.extend dflt a l
      = ⟨a.data ++ l.map (fun o => o.getD dflt),
         ⟨a.validity.bits ++ l.map Option.isSome⟩⟩ := by
  show Nullable.extendOpt FixedSizePrimitiveArray.push dflt a l = _
  rw [Nullable.extendOpt_eq]
  exact congrArg₂ Nullable.mk
    (foldl_list_push (fun o : Option α => o.getD dflt) l a.data) rfl

theorem nullNullable_extend_eq {α : Type} (dflt : α) (a : NullArrayNullable)
    (l : List (Option α)) :
    NullArrayNullable.extend dflt a l
      = ⟨⟨a.data.len + l.length⟩, ⟨a.validity.bits ++ l.map Option.isSome⟩⟩ := by
  show Nullable.extendOpt Nulls.push dflt a l = _
  rw [Nullable.extendOpt_eq, foldl_nulls_push (fun o : Option α => o.getD dflt) l a.data]

theorem zipWith_replicate_some_of_len {α : Type} (n : Nat) (l : List α) (h : l.length = n) :
    List.zipWith (fun b v => if b then some v else none) (List.replicate n true) l
      = l.map some := by
  subst h
  exact zipWith_replicate_some l

/-! ## Claims -/

/-- Claim C1: for every nullable array (boolean, fixed-size primitive or
null array) built by bulk construction from a sequence of optional items,
the validity bitmap length equals the length of the paired data storage,
and every extension with further optional items preserves this equality. -/
theorem claim1_bitmap_data_length_lockstep :
    (∀ l : List (Option Bool),
        (BooleanArrayNullable.fromList l).data.len
          = (BooleanArrayNullable.fromList l).validity.len)
  ∧ (∀ (a : BooleanArrayNullable) (l : List (Option Bool)),
        a.data.len = a.validity.len →
        (BooleanArrayNullable.extend a l).data.len
          = (BooleanArrayNullable.extend a l).validity.len)
  ∧ (∀ (α : Type) (dflt : α) (l : List (Option α)),
        (FixedSizePrimitiveArrayNullable.fromList dflt l).data.length
          = (FixedSizePrimitiveArrayNullable.fromList dflt l).validity.len)
  ∧ (∀ (α : Type) (dflt : α) (a : FixedSizePrimitiveArrayNullable α) (l : List (Option α)),
        a.data.length = a.validity.len →
        (FixedSizePrimitiveArrayNullable.extend dflt a l).data.length
          = (FixedSizePrimitiveArrayNullable.extend dflt a l).validity.len)
  ∧ (∀ (α : Type) (dflt : α) (l : List (Option α)),
        (NullArrayNullable.fromList dflt l).data.len
          = (NullArrayNullable.fromList dflt l).validity.len)
  ∧ (∀ (α : Type) (dflt : α) (a : NullArrayNullable) (l : List (Option α)),
        a.data.len = a.validity.len →
        (NullArrayNullable.extend dflt a l).data.len
          = (NullArrayNullable.extend dflt a l).validity.len) := by
  refine ⟨?_, ?_, ?_, ?_, ?_, ?_⟩
  · intro l
    rw [booleanNullable_fromList_eq]
    simp [Bitmap.len]
  · intro a l h
    rw [booleanNullable_extend_eq]
    simp only [Bitmap.len, List.length_append, List.length_map] at h ⊢
    omega
  · intro α dflt l
    rw [fixedSizeNullable_fromList_eq]
    simp [Bitmap.len]
  · intro α dflt a l h
    rw [fixedSizeNullable_extend_eq]
    simp only [Bitmap.len, List.length_append, List.length_map] at h ⊢
    omega
  · intro α dflt l
    rw [nullNullable_fromList_eq]
    simp [Bitmap.len, Nulls.len]
  · intro α dflt a l h
    rw [nullNullable_extend_eq]
    simp only [Bitmap.len, Nulls.len, List.length_append, List.length_map] at h ⊢
    omega

/-- Witness for C1: a concrete extension of a concretely built nullable
boolean array keeps the validity bitmap length equal to the data length. -/
theorem claim1_bitmap_data_length_lockstep_witness :
    (BooleanArrayNullable.extend (BooleanArrayNullable.fromList [some true]) [none]).data.len
      = (BooleanArrayNullable.extend (BooleanArrayNullable.fromList [some true]) [none]).validity.len :=
  claim1_bitmap_data_length_lockstep.2.1 (BooleanArrayNullable.fromList [some true]) [none]
    (by decide)

/-- Claim C2: promoting any non-nullable array of length L (boolean,
fixed-size primitive or null array) to the nullable variant yields an array
for which all_valid() is true and whose validity bitmap has length L. -/
theorem claim2_promotion_all_valid :
    (∀ a : BooleanArray,
        (BooleanArray.toNullable a).all_valid = true
      ∧ (BooleanArray.toNullable a).validity.len = a.len)
  ∧ (∀ (α : Type) (a : FixedSizePrimitiveArray α),
        (FixedSizePrimitiveArray.toNullable a).all_valid = true
      ∧ (FixedSizePrimitiveArray.toNullable a).validity.len = a.length)
  ∧ (∀ a : NullArray,
        (NullArray.toNullable a).all_valid = true
      ∧ (NullArray.toNullable a).validity.len = a.len) := by
  refine ⟨fun a => ⟨?_, ?_⟩, fun α a => ⟨?_, ?_⟩, fun a => ⟨?_, ?_⟩⟩
  · exact all_replicate_true a.len
  · simp [BooleanArray.toNullable, Nullable.wrap, Bitmap.len]
  · exact all_replicate_true a.length
  · simp [FixedSizePrimitiveArray.toNullable, Nullable.wrap, Bitmap.len]
  · exact all_replicate_true a.len
  · simp [NullArray.toNullable, Nullable.wrap, Bitmap.len]

/-- Claim C3: in a nullable fixed-size primitive array collected from
optional values, every index whose input item is absent stores the element
default in the data buffer with its validity bit false; in particular
[some 1, none, some 3, some 4] yields data [1, 0, 3, 4] and validity
[true, false, true, true]. -/
theorem claim3_default_on_null :
    (∀ (α : Type) (dflt : α) (l : List (Option α)) (i : Nat),
        l.get? i = some none →
        (FixedSizePrimitiveArrayNullable.fromList dflt l).data.get? i = some dflt
      ∧ (FixedSizePrimitiveArrayNullable.fromList dflt l).validity.bits.get? i = some false)
  ∧ (FixedSizePrimitiveArrayNullable.fromList (0 : Nat) [some 1, none, some 3, some 4]).data
      = [1, 0, 3, 4]
  ∧ (FixedSizePrimitiveArrayNullable.fromList
        (0 : Nat) [some 1, none, some 3, some 4]).validity.bits
      = [true, false, true, true] := by
  refine ⟨?_, by decide, by decide⟩
  intro α dflt l i h
  rw [fixedSizeNullable_fromList_eq]
  constructor
  · show (l.map (fun o => o.getD dflt)).get? i = some dflt
    rw [List.get?_map, h]
    rfl
  · show (l.map Option.isSome).get? i = some false
    rw [List.get?_map, h]
    rfl

/-- Witness for C3: index 1 of the input [some 1, none] is absent, and the
collected array stores the default 0 there with validity bit false. -/
theorem claim3_default_on_null_witness :
    (FixedSizePrimitiveArrayNullable.fromList (0 : Nat) [some 1, none]).data.get? 1 = some 0
  ∧ (FixedSizePrimitiveArrayNullable.fromList (0 : Nat) [some 1, none]).validity.bits.get? 1
      = some false :=
  claim3_default_on_null.1 Nat 0 [some 1, none] 1 (by decide)

/-- Claim C4: collecting any finite sequence of bools into a non-nullable
boolean array and producing its element sequence, by the borrowing or the
owning iterator, reproduces the original sequence exactly. -/
theorem claim4_boolean_roundtrip (l : List Bool) :
    BooleanArray.toList (BooleanArray.fromList l) = l
  ∧ BooleanArray.refToList (BooleanArray.fromList l) = l := by
  constructor <;>
  · show Bitmap.toList ⟨l⟩ = l
    rw [Bitmap.toList_eq]

/-- Claim C5: collecting a finite sequence of optional bools containing at
least one absent value into a nullable boolean array preserves, at every
index, the validity bit (true iff the item was present) and, for present
items, the stored boolean value. -/
theorem claim5_nullable_bool_preserves (l : List (Option Bool)) (_hnone : none ∈ l) :
    (∀ i : Nat,
        (BooleanArrayNullable.fromList l).validity.bits.get? i
          = (l.get? i).map Option.isSome)
  ∧ (∀ (i : Nat) (b : Bool), l.get? i = some (some b) →
        (BooleanArrayNullable.fromList l).data.bits.get? i = some b) := by
  rw [booleanNullable_fromList_eq]
  constructor
  · intro i
    exact List.get?_map Option.isSome l i
  · intro i b h
    show (l.map (fun o => o.getD false)).get? i = some b
    rw [List.get?_map, h]
    rfl

/-- Witness for C5: the input [some true, none] contains an absent value;
the validity bit at its index 1 is false. -/
theorem claim5_nullable_bool_preserves_witness :
    (BooleanArrayNullable.fromList [some true, none]).validity.bits.get? 1 = some false := by
  have h := claim5_nullable_bool_preserves [some true, none] (by decide)
  simpa using h.1 1

/-- Claim C6: collecting [true, false, true, true] into a non-nullable
boolean array produces length 4 and the single raw packed byte 0b00001101;
in general, bit i of the packed-byte view, addressed as bit i % 8 of byte
i / 8, is the i-th collected element (least-significant-bit-first packing,
8 bits per byte). -/
theorem claim6_packed_bytes :
    (BooleanArray.fromList [true, false, true, true]).len = 4
  ∧ (BooleanArray.fromList [true, false, true, true]).rawBytes = [0b00001101]
  ∧ (∀ (l : List Bool) (i : Nat),
        bitAt ((BooleanArray.fromList l).rawBytes.getD (i / 8) 0) (i % 8)
          = l.getD i false) :=
  ⟨rfl, by decide, fun l i => packBits_bitAt l i⟩

/-- Claim C7: the raw byte view of a non-nullable fixed-size primitive array
of N elements, for an element kind whose native representation has a fixed
width, has length N times that width and is the concatenation, in index
order, of each element's native byte representation. -/
theorem claim7_raw_byte_view (α : Type) (size : Nat) (toBytes : α → List Nat)
    (h : ∀ a : α, (toBytes a).length = size) (l : List α) :
    (FixedSizePrimitiveArray.rawBytes toBytes (FixedSizePrimitiveArray.fromList l)).length
      = l.length * size
  ∧ FixedSizePrimitiveArray.rawBytes toBytes (FixedSizePrimitiveArray.fromList l)
      = ((FixedSizePrimitiveArray.fromList l).map toBytes).flatten := by
  refine ⟨?_, rfl⟩
  show ((l.map toBytes).flatten).length = l.length * size
  rw [List.length_flatten]
  induction l with
  | nil => simp
  | cons a rest ih =>
    simp only [List.map_cons, List.sum_cons, h, List.length_cons, Nat.succ_mul, ih]
    omega

/-- Witness for C7: the little-endian 8-byte representation of 64-bit values
has fixed width 8, and the byte view of a 3-element array has length 24. -/
theorem claim7_raw_byte_view_witness :
    (FixedSizePrimitiveArray.rawBytes toBytesU64
        (FixedSizePrimitiveArray.fromList [1, 2, 3])).length = 3 * 8 :=
  (claim7_raw_byte_view Nat 8 toBytesU64 (fun a => by simp [toBytesU64]) [1, 2, 3]).1

/-- Claim C8: for every nullable array, is_valid(i) is an absent result when
i is at least the validity bitmap length and bit i of the bitmap otherwise,
and is_null(i) is the pointwise logical negation of is_valid(i); in
particular the nullable boolean array built from
[some true, none, some true, some false] has is_valid(1) = some false and
is_valid(4) = none. -/
theorem claim8_validity_queries :
    (∀ (D : Type) (n : Nullable D) (i : Nat),
        (n.validity.len ≤ i → n.is_valid i = none)
      ∧ (i < n.validity.len → n.is_valid i = some (n.validity.bits.getD i false))
      ∧ n.is_null i = (n.is_valid i).map not)
  ∧ (BooleanArrayNullable.fromList [some true, none, some true, some false]).is_valid 1
      = some false
  ∧ (BooleanArrayNullable.fromList [some true, none, some true, some false]).is_valid 4
      = none := by
  refine ⟨?_, by decide, by decide⟩
  intro D n i
  refine ⟨fun h => ?_, fun h => ?_, rfl⟩
  · exact List.get?_eq_none.mpr h
  · exact get?_eq_some_getD n.validity.bits false i h

/-- Witness for C8: an out-of-range validity query on a concrete nullable
boolean array of length 1 yields an absent result. -/
theorem claim8_validity_queries_witness :
    (BooleanArrayNullable.fromList [some true]).is_valid 5 = none :=
  (claim8_validity_queries.1 Bitmap (BooleanArrayNullable.fromList [some true]) 5).1
    (by decide)

/-- Claim C9: the non-nullable null array bulk-constructed from a sequence
of N values has length N, its storage is only the count, and its sequence
production yields the element default exactly N times. -/
theorem claim9_null_array (α : Type) (dflt : α) (l : List α) :
    (Nulls.fromList l).len = l.length
  ∧ Nulls.toList dflt (Nulls.fromList l) = List.replicate l.length dflt
  ∧ (Nulls.toList dflt (Nulls.fromList l)).length = l.length := by
  refine ⟨rfl, rfl, ?_⟩
  simp [Nulls.toList, Nulls.fromList]

/-- Claim C10: for every non-nullable array (boolean, fixed-size primitive
or null array), iterating the nullable array obtained by promotion yields
exactly the elements of the original array, each wrapped in some, in the
same order. -/
theorem claim10_promotion_iteration :
    (∀ a : BooleanArray,
        BooleanArrayNullable.toList (BooleanArray.toNullable a)
          = (BooleanArray.toList a).map some)
  ∧ (∀ (α : Type) (a : FixedSizePrimitiveArray α),
        FixedSizePrimitiveArrayNullable.toList (FixedSizePrimitiveArray.toNullable a)
          = (FixedSizePrimitiveArray.toList a).map some)
  ∧ (∀ (α : Type) (dflt : α) (a : NullArray),
        NullArrayNullable.toList dflt (NullArray.toNullable a)
          = (Nulls.toList dflt a).map some) := by
  refine ⟨?_, ?_, ?_⟩
  · intro a
    show List.zipWith _ (Bitmap.toList ⟨List.replicate a.len true⟩) (Bitmap.toList a)
        = (Bitmap.toList a).map some
    rw [Bitmap.toList_eq, Bitmap.toList_eq]
    exact zipWith_replicate_some_of_len a.len a.bits rfl
  · intro α a
    show List.zipWith _ (Bitmap.toList ⟨List.replicate a.length true⟩) a
        = a.map some
    rw [Bitmap.toList_eq]
    exact zipWith_replicate_some_of_len a.length a rfl
  · intro α dflt a
    show List.zipWith _ (Bitmap.toList ⟨List.replicate a.len true⟩)
        (List.replicate a.len dflt) = (List.replicate a.len dflt).map some
    rw [Bitmap.toList_eq]
    exact zipWith_replicate_some_of_len a.len (List.replicate a.len dflt)
      (List.length_replicate _ _)

end Narrow
